import Mathlib

/-!
Verification development for the SlackBot repository.

The shallow embedding below translates the relevant parts of the
repository's Python source into Lean:

* `slackbot/_action.py` — the `escape_text` / `unescape_text` pair
  (chained single-pass `str.replace` calls on strings, modelled as
  functions on `List Char`).
* `slackbot/action/_download.py` — the Download action (the consumer of
  download reports): message rendering (`_start_message`,
  `_progress_message`, `_finish_report`, `_error_report`), report posting
  (`_post_report`), queue draining (`Download.update`), and the chat-event
  callback (`Download._callback`).
* `slackbot/_team.py` — `ChannelList.id_search`.

The download engine itself (the `download` package: `ThreadGenerator`,
worker threads, `Report` construction) is not part of the repository
snapshot; where a claim depends on it, the engine is modelled from the
specification and the corresponding definitions say so in their doc
comments.
-/

namespace SlackBot

/-! ## Strings: `escape_text` / `unescape_text` (`slackbot/_action.py`)

Python strings are modelled as `List Char`.  `str.replace(old, new)`
scans left to right, replaces non-overlapping occurrences of `old`, and
does not rescan the inserted replacement text.  For a one-character
`old` this is exactly a character-wise substitution (`hmap` below); for
the multi-character entity patterns of `unescape_text` it is the
left-to-right scan written out with explicit patterns.
-/

/-- Character-wise flat map: `hmap f s` concatenates `f c` over the
characters of `s`.  Used to model `str.replace` with a one-character
search string. -/
def hmap (f : Char → List Char) : List Char → List Char
  | [] => []
  | c :: rest => f c ++ hmap f rest

/-- Python `s.replace(c, rep)` for a one-character search string `c`:
every occurrence of the character `c` is replaced by `rep`, all other
characters are kept. -/
def replace1 (c : Char) (rep : List Char) (s : List Char) : List Char :=
  hmap (fun d => if d = c then rep else [d]) s

/-- The character list of the HTML entity `&amp;`. -/
def ampEntity : List Char := ['&', 'a', 'm', 'p', ';']

/-- The character list of the HTML entity `&gt;`. -/
def gtEntity : List Char := ['&', 'g', 't', ';']

/-- The character list of the HTML entity `&lt;`. -/
def ltEntity : List Char := ['&', 'l', 't', ';']

/-- `escape_text` from `slackbot/_action.py`:
`string.replace('&', '&amp;').replace('>', '&gt;').replace('<', '&lt;')`. -/
def escape_text (s : List Char) : List Char :=
  replace1 '<' ltEntity (replace1 '>' gtEntity (replace1 '&' ampEntity s))

/-- Python `s.replace('&amp;', '&')`: the left-to-right, non-overlapping
scan; the inserted `&` is not rescanned. -/
def replaceAmpEntity : List Char → List Char
  | '&' :: 'a' :: 'm' :: 'p' :: ';' :: rest => '&' :: replaceAmpEntity rest
  | c :: rest => c :: replaceAmpEntity rest
  | [] => []

/-- Python `s.replace('&gt;', '>')`: the left-to-right, non-overlapping
scan; the inserted `>` is not rescanned. -/
def replaceGtEntity : List Char → List Char
  | '&' :: 'g' :: 't' :: ';' :: rest => '>' :: replaceGtEntity rest
  | c :: rest => c :: replaceGtEntity rest
  | [] => []

/-- Python `s.replace('&lt;', '<')`: the left-to-right, non-overlapping
scan; the inserted `<` is not rescanned. -/
def replaceLtEntity : List Char → List Char
  | '&' :: 'l' :: 't' :: ';' :: rest => '<' :: replaceLtEntity rest
  | c :: rest => c :: replaceLtEntity rest
  | [] => []

/-- `unescape_text` from `slackbot/_action.py`:
`string.replace('&amp;', '&').replace('&gt;', '>').replace('&lt;', '<')`. -/
def unescape_text (s : List Char) : List Char :=
  replaceLtEntity (replaceGtEntity (replaceAmpEntity s))

/-- `occurs pat s` decides whether `pat` occurs as a contiguous
substring of `s`. -/
def occurs (pat : List Char) : List Char → Bool
  | [] => decide (pat = [])
  | c :: rest => pat.isPrefixOf (c :: rest) || occurs pat rest

/-- Per-character effect of `escape_text`. -/
def escapeChar (c : Char) : List Char :=
  if c = '&' then ampEntity
  else if c = '>' then gtEntity
  else if c = '<' then ltEntity
  else [c]

/-- Per-character form of `escape_text` output after the `&amp;` pass of
`unescape_text` has run. -/
def stage1Char (c : Char) : List Char :=
  if c = '>' then gtEntity
  else if c = '<' then ltEntity
  else [c]

/-- Per-character form after the `&amp;` and `&gt;` passes of
`unescape_text` have run. -/
def stage2Char (c : Char) : List Char :=
  if c = '<' then ltEntity else [c]

/-! ## Data model shared by the Download action and the engine

Filesystem paths (`pathlib.Path`) are modelled as lists of path
components; `Path.joinpath` appends a component.
-/

/-- A filesystem path, as its list of components. -/
abbrev FilePath' : Type := List String

/-- `path.name` of `pathlib.Path`: the final component (empty for the
empty path). -/
def pathName (p : FilePath') : String := p.getLast?.getD ""

/-- A Slack channel (`slackbot/_team.py`, class `Channel`), restricted to
the fields the Download action reads: `id` and `name`. -/
structure Channel where
  id : String
  name : String
deriving DecidableEq

/-- `ChannelList.id_search` from `slackbot/_team.py`: the first channel
whose `id` equals the argument, if any. -/
def id_search (channels : List Channel) (id : String) : Option Channel :=
  channels.find? (fun c => c.id = id)

/-- The lifecycle event tags of the download engine.

Modelled from the spec: the `download` package (with `ReportType`) is not
in the repository snapshot; §3 specifies the tagged union
`{START, PROGRESS, FINISH, ERROR}`. -/
inductive ReportType where
  | start
  | progress
  | finish
  | error
deriving DecidableEq

/-- The error kinds of the download engine.

Modelled from the spec: the engine is not in the repository snapshot;
§7 lists `ConnectionFailure`, `Timeout`, `HTTPError(status)`,
`FilesystemError`, `Cancelled`. -/
inductive ErrorKind where
  | connectionFailure
  | timeout
  | httpError (status : Nat)
  | filesystemError
  | cancelled
deriving DecidableEq

/-- A progress snapshot (spec §3, `ProgressSnapshot`).

Modelled from the spec: the engine that builds these is not in the
repository snapshot.  Byte counts are naturals, rates and times exact
rationals. -/
structure ProgressSnapshot where
  downloaded_size : Nat
  file_size : Option Nat
  speed : ℚ
  average_speed : ℚ
  elapsed_time : ℚ
  remaining_time : Option ℚ
  progress_rate : Option ℚ
deriving DecidableEq

/-- A lifecycle report (spec §3, `ReportEvent<T>`; consumed as
`download.Report` by `slackbot/action/_download.py`).

Modelled from the spec for the fields the engine fills in; the consumer
code in the repository reads exactly these fields. -/
structure Report (I : Type) where
  type : ReportType
  path : FilePath'
  final_url : String
  saved_path : Option FilePath'
  error : Option ErrorKind
  progress : ProgressSnapshot
  info : I
deriving DecidableEq

/-- `ReportInfo` from `slackbot/action/_download.py`: the caller-supplied
opaque metadata, holding the originating channel. -/
structure ReportInfo where
  channel : Channel
deriving DecidableEq

/-- A download request as submitted to the engine
(`ThreadGenerator.start(url=..., path=..., info=...)`). -/
structure DownloadRequest (I : Type) where
  url : String
  path : FilePath'
  info : I
deriving DecidableEq

/-- The result of a successful regex match of the configured pattern
against a message text: the values of the named groups `name` and `url`.
Models what `re.Pattern.match` returns to `Download._callback` when it
is not `None`. -/
structure PatternMatch where
  name : String
  url : String
deriving DecidableEq

/-- `DownloadOption` from `slackbot/action/_download.py`, restricted to
the fields the modelled code paths read.  The compiled regex is modelled
abstractly as a function from the (stripped) message text to an optional
match: `matchAt s = some m` models `pattern.match(s)` succeeding at the
start of `s` with named groups `m.name` and `m.url`. -/
structure DownloadOption where
  channel : List String
  matchAt : String → Option PatternMatch
  destination_directory : FilePath'
  least_size : Option Nat

/-- A `message` chat event's payload (`payload['data']`), restricted to
the keys `Download._callback` reads: `subtype` (modelled as `some value`
when the key is present), `channel` and `text`. -/
structure MessageEvent where
  subtype : Option String
  channel : String
  text : String

/-! ## The Download action's consumer code
(`slackbot/action/_download.py`)

Rendered messages are modelled as lists of message parts: literal text,
a byte count formatted by `download.Report.format_bytes` (engine code,
abstracted as a tagged part), a percentage formatted by the f-string
format `.2%` (two decimal places), the literal placeholder `--.--%%`,
and a duration formatted via `datetime.timedelta`. -/

/-- One fragment of a rendered report message. -/
inductive MsgPart where
  | text (s : String)
  | bytes (n : Option ℚ)
  | percent2 (r : ℚ)
  | percentPlaceholder
  | duration (seconds : ℚ)
deriving DecidableEq

/-- `_start_message` from `slackbot/action/_download.py`:
`'[{0}]:start <{1}> (size: {2})'` with the path name, the final URL and
the formatted (possibly unknown) file size. -/
def start_message {I : Type} (report : Report I) : List MsgPart :=
  [ .text ("[" ++ pathName report.path ++ "]:start <"
      ++ report.final_url ++ "> (size: "),
    .bytes (report.progress.file_size.map (fun n => (n : ℚ))),
    .text ")" ]

/-- `_progress_message` from `slackbot/action/_download.py`.  When
`file_size` is known it renders `downloaded/total (rate)` where the rate
is the `.2%`-formatted `progress_rate` if present and the literal
placeholder `--.--%%` otherwise; when `file_size` is unknown it renders
only the downloaded byte count.  Then speed, elapsed time and (when
known) remaining time. -/
def progress_message {I : Type} (report : Report I) : List MsgPart :=
  [ .text ("[" ++ pathName report.path ++ "]:progress") ]
  ++ (match report.progress.file_size with
      | some total =>
        [ .text " ",
          .bytes (some (report.progress.downloaded_size : ℚ)),
          .text "/",
          .bytes (some (total : ℚ)),
          .text " (",
          (match report.progress.progress_rate with
           | some rate => .percent2 rate
           | none => .percentPlaceholder),
          .text ")" ]
      | none =>
        [ .text " ",
          .bytes (some (report.progress.downloaded_size : ℚ)) ])
  ++ [ .text " ",
       .bytes (some report.progress.speed),
       .text "/s in ",
       .duration report.progress.elapsed_time ]
  ++ (match report.progress.remaining_time with
      | some t => [ .text " (remaining ", .duration t, .text ")" ]
      | none => [])

/-- `_finish_report` from `slackbot/action/_download.py`.  Returns
`none` when the `assert report.saved_path is not None` fails; otherwise
the rendered message together with a flag recording whether
`report.saved_path.unlink()` was called (it is called exactly when
`least_size` is configured and `downloaded_size` is strictly below
it). -/
def finish_report {I : Type} (report : Report I) (least_size : Option Nat) :
    Option (List MsgPart × Bool) :=
  match report.saved_path with
  | none => none
  | some saved =>
    let header : List MsgPart :=
      if report.path = saved then
        [ .text ("[" ++ pathName report.path ++ "]:finish") ]
      else
        [ .text ("[" ++ pathName report.path ++ "]->["
            ++ pathName saved ++ "]:finish") ]
    let stats : List MsgPart :=
      [ .text " ",
        .bytes (some (report.progress.downloaded_size : ℚ)),
        .text " at ",
        .bytes (some report.progress.average_speed),
        .text "/s in ",
        .duration report.progress.elapsed_time ]
    match least_size with
    | some least =>
      if report.progress.downloaded_size < least then
        some (header ++ stats
          ++ [ .text "\n",
               .text ("[" ++ pathName saved ++ "]:delete"),
               .text " because the file is smaller than least size",
               .text " (",
               .bytes (some (report.progress.downloaded_size : ℚ)),
               .text " < ",
               .bytes (some (least : ℚ)),
               .text ")" ], true)
      else
        some (header ++ stats, false)
    | none => some (header ++ stats, false)

/-- `_error_report` from `slackbot/action/_download.py`:
`'[{0}]:error {1} {2}'`; `none` models the failing
`assert report.error is not None`. -/
def error_report {I : Type} (report : Report I) : Option (List MsgPart) :=
  match report.error with
  | none => none
  | some _ =>
    some [ .text ("[" ++ pathName report.path ++ "]:error") ]

/-- `_post_report` from `slackbot/action/_download.py`: renders the
report according to its type and posts the message to
`report.info.channel.id`.  The result is the posted channel id and the
message, or `none` when the selected renderer's assertion fails. -/
def post_report (option : DownloadOption) (report : Report ReportInfo) :
    Option (String × List MsgPart) :=
  match report.type with
  | .start => some (report.info.channel.id, start_message report)
  | .progress => some (report.info.channel.id, progress_message report)
  | .finish =>
    (finish_report report option.least_size).map
      (fun out => (report.info.channel.id, out.1))
  | .error =>
    (error_report report).map
      (fun msg => (report.info.channel.id, msg))

/-- The loop body of `Download.update`:
`while not q.empty(): report = q.get(); await _post_report(...)`.
The report queue is a FIFO list (head = oldest).  The result is the
list of reports taken, in processing order, and the queue left behind. -/
def Download.update (queue : List (Report ReportInfo)) :
    List (Report ReportInfo) × List (Report ReportInfo) :=
  match queue with
  | [] => ([], [])
  | report :: rest =>
    let out := Download.update rest
    (report :: out.1, out.2)

/-- `Download._callback` from `slackbot/action/_download.py`: on a
`message` event, returns the download request submitted to
`ThreadGenerator.start`, or `none` when the event is filtered out.
`String.trim` models Python's `str.strip()`. -/
def Download.callback (channels : List Channel) (option : DownloadOption)
    (data : MessageEvent) : Option (DownloadRequest ReportInfo) :=
  if data.subtype.isSome then none
  else
    match id_search channels data.channel with
    | none => none
    | some ch =>
      if ch.name ∈ option.channel then
        match option.matchAt data.text.trim with
        | none => none
        | some m =>
          some { url := m.url,
                 path := option.destination_directory ++ [m.name],
                 info := ⟨ch⟩ }
      else none

/-! ## The download engine, modelled from the spec

The `download` package (the worker threads, `ThreadGenerator` and the
construction of `Report` values) is not part of the repository snapshot;
only its caller is.  The definitions below model it from the spec
(§§3, 4.1, 4.2, 4.4).
-/

/-- How a transfer ends when it is not cancelled.

Modelled from the spec: §4.2 — a worker runs to exactly one terminal
outcome, FINISH (with the committed, possibly renamed `saved_path`) or
ERROR (with the failure's kind). -/
inductive WorkerEnding where
  | finished (saved : FilePath')
  | failed (e : ErrorKind)
deriving DecidableEq

/-- The environment one worker runs against.

Modelled from the spec: the server's final URL after redirects, the
optional content length, the byte counts of the delivered body chunks
(in order; a failed or cancelled transfer delivered only these), the
elapsed time and windowed speed estimate at each emission point, and
the ending reached when not cancelled. -/
structure WorkerEnv where
  final_url : String
  file_size : Option Nat
  chunks : List Nat
  timeAt : Nat → ℚ
  speedAt : Nat → ℚ
  ending : WorkerEnding

/-- The progress snapshot emitted with the `idx`-th event of a worker,
with `downloaded` bytes received so far.

Modelled from the spec: §4.1 — `average_speed = bytes / elapsed` (0 when
`elapsed = 0`), `speed` from a trailing window (supplied by the
environment), `remaining_time = (total - bytes) / speed` when the total
is known and `speed > 0`, `progress_rate = bytes / total` when the total
is known and absent otherwise. -/
def snapshotAt (env : WorkerEnv) (idx : Nat) (downloaded : Nat) :
    ProgressSnapshot :=
  let elapsed := env.timeAt idx
  { downloaded_size := downloaded,
    file_size := env.file_size,
    speed := env.speedAt idx,
    average_speed := if 0 < elapsed then (downloaded : ℚ) / elapsed else 0,
    elapsed_time := elapsed,
    remaining_time :=
      match env.file_size with
      | some total =>
        if 0 < env.speedAt idx then
          some (((total : ℚ) - (downloaded : ℚ)) / env.speedAt idx)
        else none
      | none => none,
    progress_rate :=
      env.file_size.map (fun total => (downloaded : ℚ) / (total : ℚ)) }

/-- Running totals of a chunk list starting from `acc` bytes already
received: the cumulative `downloaded_size` at each PROGRESS emission. -/
def cumSizes (chunks : List Nat) (acc : Nat) : List Nat :=
  match chunks with
  | [] => []
  | c :: rest => (acc + c) :: cumSizes rest (acc + c)

/-- The START report a worker emits once the response headers are
available.

Modelled from the spec: §4.2 item 3. -/
def startReport {I : Type} (req : DownloadRequest I) (env : WorkerEnv) :
    Report I :=
  { type := .start, path := req.path, final_url := env.final_url,
    saved_path := none, error := none,
    progress := snapshotAt env 0 0, info := req.info }

/-- The PROGRESS report emitted after the chunk with index `sz.1`
(0-based), when `sz.2` bytes have been downloaded in total.

Modelled from the spec: §4.2 item 4. -/
def progressReport {I : Type} (req : DownloadRequest I) (env : WorkerEnv)
    (sz : Nat × Nat) : Report I :=
  { type := .progress, path := req.path, final_url := env.final_url,
    saved_path := none, error := none,
    progress := snapshotAt env (sz.1 + 1) sz.2, info := req.info }

/-- The PROGRESS reports of a transfer: one per delivered chunk,
carrying the running byte totals. -/
def progressReports {I : Type} (req : DownloadRequest I) (env : WorkerEnv) :
    List (Report I) :=
  (cumSizes env.chunks 0).enum.map (progressReport req env)

/-- The terminal report of a transfer: when `cancelled` is set the
worker aborts and emits ERROR with kind `Cancelled` (§4.2 item 7),
otherwise FINISH with the committed `saved_path` or ERROR with the
failure's kind (§4.2 items 5 and 6).

Modelled from the spec. -/
def terminalReport {I : Type} (req : DownloadRequest I) (env : WorkerEnv)
    (cancelled : Bool) : Report I :=
  let total := env.chunks.sum
  let lastIdx := env.chunks.length + 1
  if cancelled then
    { type := .error, path := req.path, final_url := env.final_url,
      saved_path := none, error := some .cancelled,
      progress := snapshotAt env lastIdx total, info := req.info }
  else
    match env.ending with
    | .finished saved =>
      { type := .finish, path := req.path, final_url := env.final_url,
        saved_path := some saved, error := none,
        progress := snapshotAt env lastIdx total, info := req.info }
    | .failed e =>
      { type := .error, path := req.path, final_url := env.final_url,
        saved_path := none, error := some e,
        progress := snapshotAt env lastIdx total, info := req.info }

/-- The sequence of reports one worker emits for a request.

Modelled from the spec: §4.2 — a START event once headers are available,
a PROGRESS event per delivered chunk with the running total, then
exactly one terminal event.  The caller-supplied `info` is attached
unchanged to every event (§3). -/
def workerTrace {I : Type} (req : DownloadRequest I) (env : WorkerEnv)
    (cancelled : Bool) : List (Report I) :=
  startReport req env :: progressReports req env
    ++ [terminalReport req env cancelled]

/-- The worker pool's bookkeeping state: the number of live workers and
the number of admitted requests waiting for a slot.

Modelled from the spec: §4.4 — `WorkerPool` state, with the FIFO-queue
admission policy (excess requests queue rather than spawn). -/
structure PoolState where
  active : Nat
  pending : Nat
deriving DecidableEq

/-- The events that mutate the pool state. -/
inductive PoolOp where
  | submit
  | terminal
  | cancelAll
deriving DecidableEq

/-- One pool transition.

Modelled from the spec: §4.4 — `start` spawns a worker immediately when
fewer than `max_concurrent` are active and queues the request otherwise;
a worker's terminal event removes it and immediately promotes the next
queued request if any; `cancel` prevents every queued-but-not-started
request from starting (active workers remain until their terminal
events). -/
def poolStep (maxConcurrent : Nat) (s : PoolState) : PoolOp → PoolState
  | .submit =>
    if s.active < maxConcurrent then ⟨s.active + 1, s.pending⟩
    else ⟨s.active, s.pending + 1⟩
  | .terminal =>
    if s.active = 0 then s
    else if 0 < s.pending then ⟨s.active, s.pending - 1⟩
    else ⟨s.active - 1, s.pending⟩
  | .cancelAll => ⟨s.active, 0⟩

/-- The pool state after an arbitrary sequence of events, starting from
the empty pool. -/
def poolRun (maxConcurrent : Nat) (ops : List PoolOp) : PoolState :=
  ops.foldl (poolStep maxConcurrent) ⟨0, 0⟩


/-! ## Concrete values used by witnesses -/

/-- Concrete FINISH report used by witnesses. -/
def witnessFinishReport : Report Unit :=
  { type := .finish, path := ["download", "a.bin"], final_url := "http://x/a",
    saved_path := some ["download", "a.bin"], error := none,
    progress := { downloaded_size := 3, file_size := some 10, speed := 1,
                  average_speed := 1, elapsed_time := 3,
                  remaining_time := some 7, progress_rate := some (3 / 10) },
    info := () }

/-- The output of `finish_report` on the witness report. -/
def witnessFinishOut : List MsgPart × Bool :=
  (finish_report witnessFinishReport (some 5)).getD ([], false)

/-- Concrete PROGRESS report with unknown file size (and hence unknown
progress rate), as emitted for a response without Content-Length. -/
def witnessNoSizeReport : Report Unit :=
  { type := .progress, path := ["download", "b.bin"], final_url := "http://x/b",
    saved_path := none, error := none,
    progress := { downloaded_size := 1024, file_size := none, speed := 2,
                  average_speed := 2, elapsed_time := 1,
                  remaining_time := none, progress_rate := none },
    info := () }

/-- Concrete request used by witnesses. -/
def witnessRequest : DownloadRequest Unit :=
  ⟨"http://x/a", ["download", "a.bin"], ()⟩

/-- Concrete worker environment used by witnesses. -/
def witnessEnv : WorkerEnv :=
  { final_url := "http://y/a", file_size := some 10, chunks := [4, 6],
    timeAt := fun _ => 1, speedAt := fun _ => 2,
    ending := .finished ["download", "a.bin"] }

/-- Concrete Download option used by witnesses. -/
def witnessOption : DownloadOption :=
  { channel := ["general"],
    matchAt := fun _ => none,
    destination_directory := ["download"],
    least_size := some 5 }

/-- Concrete PROGRESS report (with channel info) used by witnesses. -/
def witnessPostReport : Report ReportInfo :=
  { type := .progress, path := ["download", "a.bin"],
    final_url := "http://y/a", saved_path := none, error := none,
    progress := { downloaded_size := 4, file_size := some 10, speed := 2,
                  average_speed := 2, elapsed_time := 2,
                  remaining_time := some 3, progress_rate := some (4 / 10) },
    info := ⟨⟨"C123", "general"⟩⟩ }

/-- The posting outcome of the witness report. -/
def witnessPostOut : String × List MsgPart :=
  (post_report witnessOption witnessPostReport).getD ("", [])
end SlackBot

/-! ## Theorems -/

namespace SlackBot

lemma hmap_append (f : Char → List Char) (l r : List Char) :
    hmap f (l ++ r) = hmap f l ++ hmap f r := by
  induction l with
  | nil => rfl
  | cons c l ih => simp [hmap, ih]

lemma replace1_append (c : Char) (rep l r : List Char) :
    replace1 c rep (l ++ r) = replace1 c rep l ++ replace1 c rep r :=
  hmap_append _ l r

lemma escape_cons (c : Char) (s : List Char) :
    escape_text (c :: s) = escapeChar c ++ escape_text s := by
  have h1 : replace1 '&' ampEntity (c :: s)
      = (if c = '&' then ampEntity else [c]) ++ replace1 '&' ampEntity s := rfl
  by_cases hamp : c = '&'
  · subst hamp
    simp only [escape_text, h1, if_pos rfl, replace1_append]
    rfl
  · by_cases hgt : c = '>'
    · subst hgt
      simp only [escape_text, h1, if_neg hamp, replace1_append]
      rfl
    · by_cases hlt : c = '<'
      · subst hlt
        simp only [escape_text, h1, if_neg hamp, replace1_append]
        rfl
      · simp only [escape_text, h1, if_neg hamp, replace1_append]
        have h2 : replace1 '>' gtEntity [c] = [c] := by
          simp [replace1, hmap, hgt]
        have h3 : replace1 '<' ltEntity [c] = [c] := by
          simp [replace1, hmap, hlt]
        rw [h2, h3]
        simp [escapeChar, hamp, hgt, hlt]

lemma escape_eq_hmap (s : List Char) : escape_text s = hmap escapeChar s := by
  induction s with
  | nil => rfl
  | cons c s ih => rw [escape_cons, ih]; rfl

lemma replaceAmpEntity_amp (t : List Char) :
    replaceAmpEntity (ampEntity ++ t) = '&' :: replaceAmpEntity t := rfl

lemma replaceAmpEntity_gt (t : List Char) :
    replaceAmpEntity (gtEntity ++ t) = gtEntity ++ replaceAmpEntity t := rfl

lemma replaceAmpEntity_lt (t : List Char) :
    replaceAmpEntity (ltEntity ++ t) = ltEntity ++ replaceAmpEntity t := rfl

lemma replaceAmpEntity_cons (c : Char) (t : List Char) (h : c ≠ '&') :
    replaceAmpEntity (c :: t) = c :: replaceAmpEntity t := by
  rw [replaceAmpEntity.eq_def]
  split
  · rename_i rest heq
    cases heq
    exact absurd rfl h
  · rename_i c' rest' hnm heq
    cases heq
    rfl
  · simp at *

lemma stage1_eq (s : List Char) :
    replaceAmpEntity (hmap escapeChar s) = hmap stage1Char s := by
  induction s with
  | nil => rfl
  | cons c s ih =>
    show replaceAmpEntity (escapeChar c ++ hmap escapeChar s)
        = stage1Char c ++ hmap stage1Char s
    by_cases hamp : c = '&'
    · subst hamp
      rw [show escapeChar '&' = ampEntity from rfl, replaceAmpEntity_amp, ih]
      rfl
    · by_cases hgt : c = '>'
      · subst hgt
        rw [show escapeChar '>' = gtEntity from rfl, replaceAmpEntity_gt, ih]
        rfl
      · by_cases hlt : c = '<'
        · subst hlt
          rw [show escapeChar '<' = ltEntity from rfl, replaceAmpEntity_lt, ih]
          rfl
        · rw [show escapeChar c = [c] by simp [escapeChar, hamp, hgt, hlt],
              show stage1Char c = [c] by simp [stage1Char, hgt, hlt]]
          rw [List.singleton_append, List.singleton_append,
              replaceAmpEntity_cons c _ hamp, ih]

lemma replaceGtEntity_gt (t : List Char) :
    replaceGtEntity (gtEntity ++ t) = '>' :: replaceGtEntity t := rfl

lemma replaceGtEntity_lt (t : List Char) :
    replaceGtEntity (ltEntity ++ t) = ltEntity ++ replaceGtEntity t := rfl

lemma replaceGtEntity_cons (c : Char) (t : List Char) (h : c ≠ '&') :
    replaceGtEntity (c :: t) = c :: replaceGtEntity t := by
  rw [replaceGtEntity.eq_def]
  split
  · rename_i rest heq
    cases heq
    exact absurd rfl h
  · rename_i c' rest' hnm heq
    cases heq
    rfl
  · simp at *

lemma replaceGtEntity_amp (t : List Char)
    (h : ∀ r : List Char, t ≠ 'g' :: 't' :: ';' :: r) :
    replaceGtEntity ('&' :: t) = '&' :: replaceGtEntity t := by
  rw [replaceGtEntity.eq_def]
  split
  · rename_i rest heq
    cases heq
    exact absurd rfl (h rest)
  · rename_i c' rest' hnm heq
    cases heq
    rfl
  · simp at *

lemma hmap_stage1_cons_inv (s : List Char) (c : Char) (r : List Char)
    (h : hmap stage1Char s = c :: r) (hc : c ≠ '&') :
    ∃ s', s = c :: s' ∧ r = hmap stage1Char s' := by
  cases s with
  | nil => exact absurd h (by simp [hmap])
  | cons d s' =>
    by_cases hgt : d = '>'
    · subst hgt
      rw [show hmap stage1Char ('>' :: s') = '&' :: 'g' :: 't' :: ';' :: hmap stage1Char s' from rfl] at h
      cases h
      exact absurd rfl hc
    · by_cases hlt : d = '<'
      · subst hlt
        rw [show hmap stage1Char ('<' :: s') = '&' :: 'l' :: 't' :: ';' :: hmap stage1Char s' from rfl] at h
        cases h
        exact absurd rfl hc
      · rw [show hmap stage1Char (d :: s') = d :: hmap stage1Char s' by
            simp [hmap, stage1Char, hgt, hlt]] at h
        obtain ⟨rfl, rfl⟩ := List.cons.injEq .. ▸ h
        exact ⟨s', rfl, rfl⟩

lemma occurs_cons_false (pat : List Char) (c : Char) (s : List Char)
    (h : occurs pat (c :: s) = false) : occurs pat s = false := by
  rw [occurs] at h
  exact (Bool.or_eq_false_iff.mp h).2

lemma stage2_eq (s : List Char) (h : occurs gtEntity s = false) :
    replaceGtEntity (hmap stage1Char s) = hmap stage2Char s := by
  induction s with
  | nil => rfl
  | cons c s ih =>
    have ih' := ih (occurs_cons_false _ _ _ h)
    show replaceGtEntity (stage1Char c ++ hmap stage1Char s)
        = stage2Char c ++ hmap stage2Char s
    by_cases hgt : c = '>'
    · subst hgt
      rw [show stage1Char '>' = gtEntity from rfl, replaceGtEntity_gt, ih']
      rfl
    · by_cases hlt : c = '<'
      · subst hlt
        rw [show stage1Char '<' = ltEntity from rfl, replaceGtEntity_lt, ih']
        rfl
      · by_cases hamp : c = '&'
        · subst hamp
          rw [show stage1Char '&' = ['&'] from rfl, List.singleton_append]
          have hsafe : ∀ r : List Char,
              hmap stage1Char s ≠ 'g' :: 't' :: ';' :: r := by
            intro r hr
            obtain ⟨s1, rfl, hr1⟩ :=
              hmap_stage1_cons_inv s 'g' _ hr (by decide)
            obtain ⟨s2, rfl, hr2⟩ :=
              hmap_stage1_cons_inv s1 't' _ hr1.symm (by decide)
            obtain ⟨s3, rfl, _⟩ :=
              hmap_stage1_cons_inv s2 ';' _ hr2.symm (by decide)
            rw [occurs] at h
            have : gtEntity.isPrefixOf
                ('&' :: 'g' :: 't' :: ';' :: s3) = true := by
              simp [gtEntity, List.isPrefixOf]
            simp [this] at h
          rw [replaceGtEntity_amp _ hsafe, ih']
          rfl
        · rw [show stage1Char c = [c] by simp [stage1Char, hgt, hlt],
              show stage2Char c = [c] by simp [stage2Char, hlt]]
          rw [List.singleton_append, List.singleton_append,
              replaceGtEntity_cons c _ hamp, ih']

lemma replaceLtEntity_lt (t : List Char) :
    replaceLtEntity (ltEntity ++ t) = '<' :: replaceLtEntity t := rfl

lemma replaceLtEntity_cons (c : Char) (t : List Char) (h : c ≠ '&') :
    replaceLtEntity (c :: t) = c :: replaceLtEntity t := by
  rw [replaceLtEntity.eq_def]
  split
  · rename_i rest heq
    cases heq
    exact absurd rfl h
  · rename_i c' rest' hnm heq
    cases heq
    rfl
  · simp at *

lemma replaceLtEntity_amp (t : List Char)
    (h : ∀ r : List Char, t ≠ 'l' :: 't' :: ';' :: r) :
    replaceLtEntity ('&' :: t) = '&' :: replaceLtEntity t := by
  rw [replaceLtEntity.eq_def]
  split
  · rename_i rest heq
    cases heq
    exact absurd rfl (h rest)
  · rename_i c' rest' hnm heq
    cases heq
    rfl
  · simp at *

lemma hmap_stage2_cons_inv (s : List Char) (c : Char) (r : List Char)
    (h : hmap stage2Char s = c :: r) (hc : c ≠ '&') :
    ∃ s', s = c :: s' ∧ r = hmap stage2Char s' := by
  cases s with
  | nil => exact absurd h (by simp [hmap])
  | cons d s' =>
    by_cases hlt : d = '<'
    · subst hlt
      rw [show hmap stage2Char ('<' :: s') = '&' :: 'l' :: 't' :: ';' :: hmap stage2Char s' from rfl] at h
      cases h
      exact absurd rfl hc
    · rw [show hmap stage2Char (d :: s') = d :: hmap stage2Char s' by
          simp [hmap, stage2Char, hlt]] at h
      obtain ⟨rfl, rfl⟩ := List.cons.injEq .. ▸ h
      exact ⟨s', rfl, rfl⟩

lemma stage3_eq (s : List Char) (h : occurs ltEntity s = false) :
    replaceLtEntity (hmap stage2Char s) = s := by
  induction s with
  | nil => rfl
  | cons c s ih =>
    have ih' := ih (occurs_cons_false _ _ _ h)
    show replaceLtEntity (stage2Char c ++ hmap stage2Char s) = c :: s
    by_cases hlt : c = '<'
    · subst hlt
      rw [show stage2Char '<' = ltEntity from rfl, replaceLtEntity_lt, ih']
    · by_cases hamp : c = '&'
      · subst hamp
        rw [show stage2Char '&' = ['&'] from rfl, List.singleton_append]
        have hsafe : ∀ r : List Char,
            hmap stage2Char s ≠ 'l' :: 't' :: ';' :: r := by
          intro r hr
          obtain ⟨s1, rfl, hr1⟩ :=
            hmap_stage2_cons_inv s 'l' _ hr (by decide)
          obtain ⟨s2, rfl, hr2⟩ :=
            hmap_stage2_cons_inv s1 't' _ hr1.symm (by decide)
          obtain ⟨s3, rfl, _⟩ :=
            hmap_stage2_cons_inv s2 ';' _ hr2.symm (by decide)
          have : ltEntity.isPrefixOf
              ('&' :: 'l' :: 't' :: ';' :: s3) = true := by
            simp [ltEntity, List.isPrefixOf]
          rw [occurs] at h
          simp [this] at h
        rw [replaceLtEntity_amp _ hsafe, ih']
      · rw [show stage2Char c = [c] by simp [stage2Char, hlt],
            List.singleton_append, replaceLtEntity_cons c _ hamp, ih']

lemma unescape_escape_eq (s : List Char)
    (hgt : occurs gtEntity s = false) (hlt : occurs ltEntity s = false) :
    unescape_text (escape_text s) = s := by
  rw [unescape_text, escape_eq_hmap, stage1_eq, stage2_eq s hgt,
      stage3_eq s hlt]

/-- C10 counterexample: the round trip is not the identity on the string
`&gt;` — escaping gives `&amp;gt;`, and unescaping first rewrites
`&amp;` to `&`, creating a fresh `&gt;` that the second pass then
rewrites to `>`. -/
theorem claim_C10_counterexample :
    unescape_text (escape_text ['&', 'g', 't', ';']) ≠ ['&', 'g', 't', ';'] := by
  decide

/-- C10 (amended): for every string in which neither `&gt;` nor `&lt;`
occurs as a substring, `unescape_text (escape_text s) = s`. -/
theorem claim_C10_roundtrip (s : List Char)
    (hgt : occurs gtEntity s = false) (hlt : occurs ltEntity s = false) :
    unescape_text (escape_text s) = s :=
  unescape_escape_eq s hgt hlt

/-- C10 witness: the amended round trip at the concrete string
`a<b>&c`. -/
theorem claim_C10_roundtrip_witness :
    occurs gtEntity "a<b>&c".toList = false ∧
    occurs ltEntity "a<b>&c".toList = false ∧
    unescape_text (escape_text "a<b>&c".toList) = "a<b>&c".toList :=
  ⟨by decide, by decide,
    claim_C10_roundtrip "a<b>&c".toList (by decide) (by decide)⟩


/-- C1: after a FINISH report is drained, the consumer
(`_finish_report`) deletes the saved file if and only if a least size
is configured and the report's downloaded size is strictly below it;
otherwise the file is left in place. -/
theorem claim_C1_delete_iff_below_least_size {I : Type} (r : Report I)
    (ls : Option Nat) (out : List MsgPart × Bool)
    (h : finish_report r ls = some out) :
    out.2 = true ↔ ∃ m, ls = some m ∧ r.progress.downloaded_size < m := by
  unfold finish_report at h
  cases hs : r.saved_path with
  | none => rw [hs] at h; exact absurd h (by simp)
  | some saved =>
    rw [hs] at h
    cases ls with
    | none =>
      simp only at h
      obtain rfl := (Option.some.injEq _ _ ▸ h).symm
      simp
    | some least =>
      simp only at h
      by_cases hlt : r.progress.downloaded_size < least
      · rw [if_pos hlt] at h
        obtain rfl := (Option.some.injEq _ _ ▸ h).symm
        simp [hlt]
      · rw [if_neg hlt] at h
        obtain rfl := (Option.some.injEq _ _ ▸ h).symm
        simp [hlt]

/-- Witness for the C1 theorem at a concrete FINISH report. -/
theorem claim_C1_witness :
    finish_report witnessFinishReport (some 5) = some witnessFinishOut ∧
    (witnessFinishOut.2 = true ↔
      ∃ m, (some 5 : Option Nat) = some m ∧
        witnessFinishReport.progress.downloaded_size < m) :=
  ⟨rfl, claim_C1_delete_iff_below_least_size witnessFinishReport (some 5)
    witnessFinishOut rfl⟩

/-- C4: `Download.update` drains exactly the reports queued at entry,
in first-in-first-out order, leaving the queue empty; on an empty queue
it takes nothing. -/
theorem claim_C4_drain (q : List (Report ReportInfo)) :
    Download.update q = (q, []) := by
  induction q with
  | nil => rfl
  | cons r rest ih => simp [Download.update, ih]

/-- C7 counterexample: on a PROGRESS report with unknown `file_size`
(hence unknown `progress_rate`), `_progress_message` renders no
placeholder at all, refuting the claim that a placeholder is rendered
whenever `progress_rate` is unknown. -/
theorem claim_C7_counterexample :
    witnessNoSizeReport.progress.progress_rate = none ∧
    MsgPart.percentPlaceholder ∉ progress_message witnessNoSizeReport := by
  decide

/-- C7 (amended): `_progress_message` renders the two-decimal
percentage exactly when `file_size` is known and `progress_rate` is
known (and the rendered value is the rate itself), and the placeholder
exactly when `file_size` is known but `progress_rate` is not; when
`file_size` is unknown neither is rendered. -/
theorem claim_C7_percent_rendering {I : Type} (r : Report I) :
    (MsgPart.percentPlaceholder ∈ progress_message r ↔
      r.progress.file_size.isSome ∧ r.progress.progress_rate = none) ∧
    (∀ q : ℚ, MsgPart.percent2 q ∈ progress_message r ↔
      r.progress.file_size.isSome ∧ r.progress.progress_rate = some q) := by
  rcases hfs : r.progress.file_size with _ | total <;>
    rcases hrate : r.progress.progress_rate with _ | rate <;>
      rcases hrem : r.progress.remaining_time with _ | rem <;>
        simp [progress_message, hfs, hrate, hrem, eq_comm]

/-- C9: `Download._callback` submits a download request iff the
`message` event has no `subtype` key, its channel id resolves to a
known channel whose name is configured, and the stripped text matches
the configured pattern; the submitted request then carries the match's
`url` group as URL and the destination directory joined with the
`name` group as path, with the resolved channel as its info. -/
theorem claim_C9_callback (channels : List Channel) (opt : DownloadOption)
    (data : MessageEvent) (req : DownloadRequest ReportInfo) :
    Download.callback channels opt data = some req ↔
      data.subtype = none ∧
      ∃ ch, id_search channels data.channel = some ch ∧
        ch.name ∈ opt.channel ∧
        ∃ m, opt.matchAt data.text.trim = some m ∧
          req = { url := m.url,
                  path := opt.destination_directory ++ [m.name],
                  info := ⟨ch⟩ } := by
  unfold Download.callback
  rcases hsub : data.subtype with _ | v
  · rcases hch : id_search channels data.channel with _ | ch
    · simp [hch]
    · by_cases hmem : ch.name ∈ opt.channel
      · rcases hm : opt.matchAt data.text.trim with _ | m
        · simp [hch, hmem, hm]
        · simp [hch, hmem, hm, eq_comm]
      · simp [hch, hmem]
  · simp

lemma poolStep_active_le (m : Nat) (s : PoolState) (op : PoolOp)
    (h : s.active ≤ m) : (poolStep m s op).active ≤ m := by
  cases op <;> simp only [poolStep] <;> (repeat' split) <;> simp_all <;> omega

lemma poolFold_active_le (m : Nat) (ops : List PoolOp) (s : PoolState)
    (h : s.active ≤ m) : (ops.foldl (poolStep m) s).active ≤ m := by
  induction ops generalizing s with
  | nil => exact h
  | cons op ops ih => exact ih _ (poolStep_active_le m s op h)

/-- C6 (spec-modelled): for every admission sequence at most
`max_concurrent` workers are active at any point, and an admission
arriving while the bound is reached queues the request instead of
starting it. -/
theorem claim_C6_concurrency_bound (m : Nat) (ops : List PoolOp) :
    (poolRun m ops).active ≤ m ∧
    ∀ s : PoolState, s.active = m →
      poolStep m s .submit = ⟨m, s.pending + 1⟩ := by
  constructor
  · exact poolFold_active_le m ops ⟨0, 0⟩ (Nat.zero_le m)
  · intro s hs
    simp [poolStep, hs]

/-- Witness for the C6 theorem at a concrete admission sequence. -/
theorem claim_C6_witness :
    (poolRun 1 [.submit, .submit, .terminal]).active ≤ 1 ∧
    poolStep 1 ⟨1, 0⟩ .submit = ⟨1, 1⟩ := by
  have h := claim_C6_concurrency_bound 1 [.submit, .submit, .terminal]
  exact ⟨h.1, h.2 ⟨1, 0⟩ rfl⟩

lemma cumSizes_ge (chunks : List Nat) (acc : Nat) :
    ∀ x ∈ cumSizes chunks acc, acc ≤ x := by
  induction chunks generalizing acc with
  | nil => simp [cumSizes]
  | cons ch rest ih =>
    intro x hx
    rcases List.mem_cons.mp hx with rfl | hx
    · omega
    · have := ih (acc + ch) x hx
      omega

lemma cumSizes_pairwise (chunks : List Nat) (acc : Nat) :
    List.Pairwise (· ≤ ·) (cumSizes chunks acc) := by
  induction chunks generalizing acc with
  | nil => simp [cumSizes]
  | cons ch rest ih =>
    refine List.Pairwise.cons ?_ (ih (acc + ch))
    intro x hx
    have := cumSizes_ge rest (acc + ch) x hx
    omega

lemma startReport_type {I : Type} (req : DownloadRequest I) (env : WorkerEnv) :
    (startReport req env).type = .start := rfl

lemma progressReports_types {I : Type} (req : DownloadRequest I)
    (env : WorkerEnv) : ∀ r ∈ progressReports req env, r.type = .progress := by
  intro r hr
  obtain ⟨sz, _, rfl⟩ := List.mem_map.mp hr
  rfl

lemma terminalReport_type {I : Type} (req : DownloadRequest I)
    (env : WorkerEnv) (c : Bool) :
    (terminalReport req env c).type = .finish ∨
      (terminalReport req env c).type = .error := by
  cases c with
  | true => exact Or.inr rfl
  | false =>
    cases h : env.ending with
    | finished saved => exact Or.inl (by simp [terminalReport, h])
    | failed e => exact Or.inr (by simp [terminalReport, h])

lemma progressReports_sizes {I : Type} (req : DownloadRequest I)
    (env : WorkerEnv) :
    (progressReports req env).map (fun r => r.progress.downloaded_size)
      = cumSizes env.chunks 0 := by
  rw [progressReports, List.map_map]
  exact List.enumFrom_map_snd 0 _

/-- C3 (spec-modelled): each worker trace has exactly one START event,
exactly one terminal (FINISH or ERROR) event, the START first and the
terminal last, and the PROGRESS events in between carry monotonically
non-decreasing `downloaded_size`. -/
theorem claim_C3_lifecycle {I : Type} (req : DownloadRequest I)
    (env : WorkerEnv) (c : Bool) :
    ((workerTrace req env c).countP (fun r => decide (r.type = .start)) = 1) ∧
    ((workerTrace req env c).countP
      (fun r => decide (r.type = .finish ∨ r.type = .error)) = 1) ∧
    ((workerTrace req env c).head?.map (fun r => r.type) = some .start) ∧
    (∃ t, (workerTrace req env c).getLast? = some t ∧
      (t.type = .finish ∨ t.type = .error)) ∧
    List.Pairwise (· ≤ ·)
      (((workerTrace req env c).filter
          (fun r => decide (r.type = .progress))).map
        (fun r => r.progress.downloaded_size)) := by
  have hP := progressReports_types req env
  have ht := terminalReport_type req env c
  have hmid : (progressReports req env).countP
      (fun r => decide (r.type = .start)) = 0 := by
    rw [List.countP_eq_zero]
    intro r hr
    simp [hP r hr]
  have hmidT : (progressReports req env).countP
      (fun r => decide (r.type = .finish ∨ r.type = .error)) = 0 := by
    rw [List.countP_eq_zero]
    intro r hr
    simp [hP r hr]
  refine ⟨?_, ?_, ?_, ?_, ?_⟩
  · rw [workerTrace, List.countP_append, List.countP_cons, hmid,
        List.countP_singleton]
    rcases ht with h | h <;> simp [startReport, h]
  · rw [workerTrace, List.countP_append, List.countP_cons, hmidT,
        List.countP_singleton]
    rcases ht with h | h <;> simp [startReport, h]
  · rfl
  · exact ⟨terminalReport req env c, List.getLast?_concat _, ht⟩
  · have hfilter : (workerTrace req env c).filter
        (fun r => decide (r.type = .progress)) = progressReports req env := by
      rw [workerTrace, List.filter_append, List.filter_cons]
      have h2 : List.filter (fun r => decide (r.type = ReportType.progress))
          [terminalReport req env c] = [] := by
        rcases ht with h | h <;> simp [List.filter, h]
      rw [h2, List.append_nil]
      have h1 : (decide ((startReport req env).type = ReportType.progress))
          = false := rfl
      rw [h1]
      simp only [Bool.false_eq_true, if_false]
      rw [List.filter_eq_self.mpr]
      intro r hr
      simp [hP r hr]
    rw [hfilter, progressReports_sizes]
    exact cumSizes_pairwise env.chunks 0

/-- C5 (spec-modelled): when cancellation is signalled during an
active transfer, the trace's terminal event is an ERROR with kind
`Cancelled`, and no event of the trace is a FINISH. -/
theorem claim_C5_cancel_terminal {I : Type} (req : DownloadRequest I)
    (env : WorkerEnv) :
    (∃ t, (workerTrace req env true).getLast? = some t ∧
      t.type = .error ∧ t.error = some .cancelled) ∧
    ∀ r ∈ workerTrace req env true, r.type ≠ .finish := by
  constructor
  · exact ⟨terminalReport req env true, List.getLast?_concat _, rfl, rfl⟩
  · intro r hr
    rcases List.mem_append.mp hr with h | h
    · rcases List.mem_cons.mp h with rfl | h
      · intro hty
        exact absurd (startReport_type req env ▸ hty) (by simp)
      · rw [progressReports_types req env r h]
        simp
    · rw [List.mem_singleton] at h
      subst h
      intro hty
      exact absurd hty (by simp [terminalReport])

lemma snapshotAt_rate_spec (env : WorkerEnv) (idx d : Nat) :
    ((snapshotAt env idx d).progress_rate.isSome ↔
      (snapshotAt env idx d).file_size.isSome) ∧
    ∀ total, (snapshotAt env idx d).file_size = some total →
      (snapshotAt env idx d).progress_rate
        = some (((snapshotAt env idx d).downloaded_size : ℚ) / total) := by
  cases h : env.file_size <;> simp [snapshotAt, h]

lemma trace_progress_snapshot {I : Type} (req : DownloadRequest I)
    (env : WorkerEnv) (c : Bool) :
    ∀ r ∈ workerTrace req env c, ∃ idx d, r.progress = snapshotAt env idx d := by
  intro r hr
  rcases List.mem_append.mp hr with h | h
  · rcases List.mem_cons.mp h with rfl | h
    · exact ⟨0, 0, rfl⟩
    · obtain ⟨sz, _, rfl⟩ := List.mem_map.mp h
      exact ⟨sz.1 + 1, sz.2, rfl⟩
  · rw [List.mem_singleton] at h
    subst h
    cases c with
    | true => exact ⟨env.chunks.length + 1, env.chunks.sum, rfl⟩
    | false =>
      cases henv : env.ending with
      | finished saved =>
        exact ⟨env.chunks.length + 1, env.chunks.sum,
          by simp [terminalReport, henv]⟩
      | failed e =>
        exact ⟨env.chunks.length + 1, env.chunks.sum,
          by simp [terminalReport, henv]⟩

/-- C2 (spec-modelled): in every report a worker emits,
`progress_rate` is present iff `file_size` is present, and whenever
`file_size` is known the rate equals `downloaded_size / file_size`
exactly. -/
theorem claim_C2_progress_rate {I : Type} (req : DownloadRequest I)
    (env : WorkerEnv) (c : Bool) :
    ∀ r ∈ workerTrace req env c,
      (r.progress.progress_rate.isSome ↔ r.progress.file_size.isSome) ∧
      ∀ total, r.progress.file_size = some total →
        r.progress.progress_rate
          = some ((r.progress.downloaded_size : ℚ) / total) := by
  intro r hr
  obtain ⟨idx, d, hp⟩ := trace_progress_snapshot req env c r hr
  rw [hp]
  exact snapshotAt_rate_spec env idx d

/-- Witness for the C2 theorem at the START report of a concrete
trace. -/
theorem claim_C2_witness :
    ((startReport witnessRequest witnessEnv).progress.progress_rate.isSome ↔
      (startReport witnessRequest witnessEnv).progress.file_size.isSome) ∧
    (startReport witnessRequest witnessEnv).progress.progress_rate
      = some (((startReport witnessRequest
          witnessEnv).progress.downloaded_size : ℚ) / 10) :=
  have h := claim_C2_progress_rate witnessRequest witnessEnv false
    (startReport witnessRequest witnessEnv)
    (List.mem_append_left _ (List.mem_cons_self _ _))
  ⟨h.1, h.2 10 rfl⟩

/-- Witness for the C5 theorem on a concrete cancelled trace. -/
theorem claim_C5_witness :
    (∃ t, (workerTrace witnessRequest witnessEnv true).getLast? = some t ∧
      t.type = .error ∧ t.error = some .cancelled) ∧
    (startReport witnessRequest witnessEnv).type ≠ .finish :=
  have h := claim_C5_cancel_terminal witnessRequest witnessEnv
  ⟨h.1, h.2 (startReport witnessRequest witnessEnv)
    (List.mem_append_left _ (List.mem_cons_self _ _))⟩

/-- C8: every event of a worker trace carries the request's `info`
unchanged (engine side, spec-modelled), and `_post_report` posts to
exactly the channel id stored in the drained report's `info`. -/
theorem claim_C8_info_passthrough (I : Type) (req : DownloadRequest I)
    (env : WorkerEnv) (c : Bool) (opt : DownloadOption) :
    (∀ r ∈ workerTrace req env c, r.info = req.info) ∧
    ∀ (r : Report ReportInfo) (out : String × List MsgPart),
      post_report opt r = some out → out.1 = r.info.channel.id := by
  constructor
  · intro r hr
    rcases List.mem_append.mp hr with h | h
    · rcases List.mem_cons.mp h with rfl | h
      · rfl
      · obtain ⟨sz, _, rfl⟩ := List.mem_map.mp h
        rfl
    · rw [List.mem_singleton] at h
      subst h
      cases c with
      | true => rfl
      | false =>
        cases henv : env.ending with
        | finished saved => simp [terminalReport, henv]
        | failed e => simp [terminalReport, henv]
  · intro r out h
    cases hty : r.type with
    | start =>
      rw [post_report, hty] at h
      obtain rfl := (Option.some.injEq _ _ ▸ h).symm
      rfl
    | progress =>
      rw [post_report, hty] at h
      obtain rfl := (Option.some.injEq _ _ ▸ h).symm
      rfl
    | finish =>
      rw [post_report, hty] at h
      rcases hfr : finish_report r opt.least_size with _ | val <;>
        rw [hfr] at h
      · exact absurd h (by simp)
      · simp only [Option.map_some'] at h
        obtain rfl := (Option.some.injEq _ _ ▸ h).symm
        rfl
    | error =>
      rw [post_report, hty] at h
      rcases her : error_report r with _ | msg <;> rw [her] at h
      · exact absurd h (by simp)
      · simp only [Option.map_some'] at h
        obtain rfl := (Option.some.injEq _ _ ▸ h).symm
        rfl

/-- Witness for the C8 theorem at concrete inputs. -/
theorem claim_C8_witness :
    (startReport witnessRequest witnessEnv).info = witnessRequest.info ∧
    witnessPostOut.1 = witnessPostReport.info.channel.id :=
  have h := claim_C8_info_passthrough Unit witnessRequest witnessEnv false
    witnessOption
  ⟨h.1 (startReport witnessRequest witnessEnv)
      (List.mem_append_left _ (List.mem_cons_self _ _)),
    h.2 witnessPostReport witnessPostOut rfl⟩
end SlackBot
